import Mathlib

/-!
Verification of the QA embedding-and-retrieval engine of this repository
(classes QAEmbedder and QASearcher of src/qamodel/demo/qajupyter.ipynb).

The numeric pipeline is embedded shallowly over the exact rationals.  The
external text-to-vector model (tokenizer plus transformer) is an opaque
collaborator and is represented by a `Backend` record: per text it yields a
token count and per-token vectors; at padding positions (introduced when a
chunk is padded to its longest member) the model may emit arbitrary values,
represented by the `junk` field, which may depend on the whole chunk and the
row.  The float square root used inside `torch.nn.functional.normalize` is
the `sqrtFn` field; theorems that depend on its numeric meaning carry
explicit hypotheses characterising it on the vectors involved.

Python exceptions are modelled by `Except PyErr`; the error kind records the
Python exception class actually raised (TypeError for subscripting or
multiplying `None`, RuntimeError for `torch.cat` on an empty list or a
reduction over an empty tensor, ValueError for `range` with step 0,
IndexError for an out-of-range list subscript).
-/

/-- Python exception kinds that the translated code can raise. -/
inductive PyErr where
  | typeError
  | valueError
  | runtimeError
  | indexError
deriving DecidableEq, Repr

/-- The external text-embedding provider together with the numeric square
root of the host float library.  `numTok t` is the number of real tokens the
tokenizer produces for text `t` (after truncation, which is independent of
the batch); `tokEntry t k d` is component `d` of the model output at real
token `k` of `t`; `junk c r k d` is the model output at padding position `k`
of row `r` when the chunk `c` is processed (fully arbitrary); `sqrtFn` is
the square root used by the p=2 norm inside normalize. -/
structure Backend where
  dim : Nat
  numTok : String → Nat
  tokEntry : String → Nat → Nat → ℚ
  junk : List String → Nat → Nat → Nat → ℚ
  sqrtFn : ℚ → ℚ

/-- The clamp floor 1e-9 used in mean pooling (`torch.clamp(..., min=1e-9)`). -/
def eps9 : ℚ := 1 / 10 ^ 9

/-- The clamp floor 1e-12 used by `torch.nn.functional.normalize` (its
default `eps`). -/
def eps12 : ℚ := 1 / 10 ^ 12

/-- Length to which the tokenizer pads every member of a chunk
(`padding=True` pads to the longest sequence of the chunk). -/
def maxLen (B : Backend) (c : List String) : Nat :=
  (c.map B.numTok).foldr max 0

/-- Model output for row `r` (text `t`) of chunk `c` at token position `k`,
component `d`: the real token vector below `numTok t`, junk at padding. -/
def tokMat (B : Backend) (c : List String) (r : Nat) (t : String) (k d : Nat) : ℚ :=
  if k < B.numTok t then B.tokEntry t k d else B.junk c r k d

/-- Attention-mask entry for text `t` at position `k`: 1 on real tokens,
0 on padding. -/
def maskVal (B : Backend) (t : String) (k : Nat) : ℚ :=
  if k < B.numTok t then 1 else 0

/-- QAEmbedder._mean_pooling, one row: sum of the token vectors weighted by
the attention mask, divided componentwise by the mask total clamped at
1e-9.  `token_embeddings` is the L×dim model output for the row,
`attention_mask` its L mask entries. -/
def mean_pooling (dim : Nat) (token_embeddings : List (List ℚ))
    (attention_mask : List ℚ) : List ℚ :=
  (List.range dim).map (fun d =>
    ((List.range attention_mask.length).map (fun k =>
      (token_embeddings.getD k []).getD d 0 * attention_mask.getD k 0)).sum
    / max (((List.range attention_mask.length).map
        (fun k => attention_mask.getD k 0)).sum) eps9)

/-- The L×dim model output for row `r` (text `t`) of chunk `c`. -/
def chunk_token_rows (B : Backend) (c : List String) (r : Nat) (t : String) :
    List (List ℚ) :=
  (List.range (maxLen B c)).map (fun k =>
    (List.range B.dim).map (fun d => tokMat B c r t k d))

/-- The attention-mask row for text `t` inside chunk `c`. -/
def chunk_mask_row (B : Backend) (c : List String) (t : String) : List ℚ :=
  (List.range (maxLen B c)).map (fun k => maskVal B t k)

/-- Tokenize a chunk, run the model and mean-pool each row: the body of one
iteration of the batching loop of QAEmbedder.get_embeddings. -/
def processChunk (B : Backend) (c : List String) : List (List ℚ) :=
  c.enum.map (fun p => mean_pooling B.dim (chunk_token_rows B c p.1 p.2) (chunk_mask_row B c p.2))

/-- The chunk start offsets produced by `range(0, n, batch)`. -/
def batchStarts (n b : Nat) : List Nat :=
  List.range' 0 ((n + b - 1) / b) b

/-- QAEmbedder.get_embeddings: iterate over `range(0, len(questions), batch)`,
embed each slice `questions[i:i+batch]`, and concatenate with `torch.cat`.
`range` with step 0 raises ValueError; `torch.cat` on the empty list (no
loop iteration, i.e. empty input) raises RuntimeError. -/
def get_embeddings (B : Backend) (questions : List String) (batch : Nat) :
    Except PyErr (List (List ℚ)) :=
  if batch = 0 then .error .valueError else
    let parts := (batchStarts questions.length batch).map
      (fun i => processChunk B ((questions.drop i).take batch))
    if parts.isEmpty then .error .runtimeError else .ok parts.flatten

/-- Sum of squares of the entries of a vector. -/
def normSq (v : List ℚ) : ℚ := (v.map (fun x => x * x)).sum

/-- torch.nn.functional.normalize with p=2 along dim 1, one row: divide by
the Euclidean norm clamped below at 1e-12. -/
def l2normalize (B : Backend) (v : List ℚ) : List ℚ :=
  v.map (fun x => x / max (B.sqrtFn (normSq v)) eps12)

/-- Inner product of two rows, as computed inside torch.mm. -/
def dot (u v : List ℚ) : ℚ := (List.zipWith (fun a b => a * b) u v).sum

/-- Column count of a row-major matrix (read off the first row). -/
def numColsM (m : List (List ℚ)) : Nat := (m.headD []).length

/-- Column `j` of a row-major matrix. -/
def colM (m : List (List ℚ)) (j : Nat) : List ℚ := m.map (fun r => r.getD j 0)

/-- Tensor.transpose(0,1) on a rectangular row-major matrix. -/
def transposeM (m : List (List ℚ)) : List (List ℚ) :=
  (List.range (numColsM m)).map (fun d => m.map (fun r => r.getD d 0))

/-- torch.mm on a Q×D matrix and a D×N matrix. -/
def matMul (A M : List (List ℚ)) : List (List ℚ) :=
  A.map (fun r => (List.range (numColsM M)).map (fun j => dot r (colM M j)))

/-- The mutable state of a QASearcher instance: the three context fields,
each `None` until first assigned. -/
structure QASearcher where
  answers : Option (List String)
  questions : Option (List String)
  question_embeddings : Option (List (List ℚ))
deriving DecidableEq, Repr

/-- A freshly constructed QASearcher: all three context fields are None. -/
def initS : QASearcher :=
  { answers := none, questions := none, question_embeddings := none }

/-- QASearcher.get_q_embeddings: embed the context questions (default batch
32), L2-normalize each row and store the transpose. -/
def get_q_embeddings (B : Backend) (questions : List String) :
    Except PyErr (List (List ℚ)) :=
  match get_embeddings B questions 32 with
  | .error e => .error e
  | .ok emb => .ok (transposeM (emb.map (l2normalize B)))

/-- QASearcher.set_context_qa: assign `answers` and `questions` first, then
compute and assign the normalized embeddings.  If the embedding step raises,
the first two assignments persist while `question_embeddings` keeps its
previous value (Python has no rollback). -/
def set_context_qa (B : Backend) (s : QASearcher)
    (questions answers : List String) : QASearcher × Except PyErr Unit :=
  let s1 : QASearcher := { s with answers := some answers, questions := some questions }
  match get_q_embeddings B questions with
  | .error e => (s1, .error e)
  | .ok emb => ({ s1 with question_embeddings := some emb }, .ok ())

/-- QASearcher.cosine_similarity: embed the new questions with the given
batch size, normalize, then `torch.mm` against the stored matrix.  If the
store is still None, the multiplication raises TypeError. -/
def cosine_similarity (B : Backend) (s : QASearcher)
    (questions : List String) (batch : Nat) : Except PyErr (List (List ℚ)) :=
  match get_embeddings B questions batch with
  | .error e => .error e
  | .ok emb =>
    match s.question_embeddings with
    | none => .error .typeError
    | some stored => .ok (matMul (emb.map (l2normalize B)) stored)

/-- Tensor.argmax worker: scan the remaining entries, replacing the current
best only on a strictly larger value, so the first maximal index wins. -/
def argmaxGo (bv : ℚ) (bi i : Nat) : List ℚ → Nat
  | [] => bi
  | y :: ys => if bv < y then argmaxGo y i (i + 1) ys else argmaxGo bv bi (i + 1) ys

/-- Tensor.argmax on a 1-D tensor: the index of the first maximal entry
(torch documents that among several maximal values the first index is
returned); undefined on an empty tensor. -/
def argmaxIdx : List ℚ → Option Nat
  | [] => none
  | x :: xs => some (argmaxGo x 0 1 xs)

/-- Tensor.argmax as the runtime sees it: reducing an empty tensor raises
RuntimeError. -/
def argmaxE (row : List ℚ) : Except PyErr Nat :=
  match argmaxIdx row with
  | some k => .ok k
  | none => .error .runtimeError

/-- Python list subscript: IndexError when out of range. -/
def lookup (l : List α) (i : Nat) : Except PyErr α :=
  match l[i]? with
  | some a => .ok a
  | none => .error .indexError

/-- Subscripting a possibly-None field: TypeError on None. -/
def asList (o : Option (List String)) : Except PyErr (List String) :=
  match o with
  | some l => .ok l
  | none => .error .typeError

/-- One response record of QASearcher.get_answers. -/
structure QARecord where
  orig_q : String
  best_q : String
  best_a : String
deriving DecidableEq, Repr

/-- The record default used only as a `getD` fallback in statements. -/
def rec0 : QARecord := { orig_q := "", best_q := "", best_a := "" }

/-- One iteration of the response loop of QASearcher.get_answers, for row
`i` of the similarity matrix. -/
def answerAt (s : QASearcher) (questions : List String)
    (sim : List (List ℚ)) (i : Nat) : Except PyErr QARecord :=
  match lookup sim i with
  | .error e => .error e
  | .ok row =>
    match argmaxE row with
    | .error e => .error e
    | .ok best =>
      match asList s.questions with
      | .error e => .error e
      | .ok qs =>
        match lookup qs best with
        | .error e => .error e
        | .ok bq =>
          match asList s.answers with
          | .error e => .error e
          | .ok ans =>
            match lookup ans best with
            | .error e => .error e
            | .ok ba =>
              match lookup questions i with
              | .error e => .error e
              | .ok oq => .ok { orig_q := oq, best_q := bq, best_a := ba }

/-- The append-in-a-loop accumulation of the response list: the first raised
exception aborts the whole call. -/
def collectE (f : Nat → Except PyErr QARecord) : List Nat → Except PyErr (List QARecord)
  | [] => .ok []
  | i :: rest =>
    match f i with
    | .error e => .error e
    | .ok r =>
      match collectE f rest with
      | .error e => .error e
      | .ok rs => .ok (r :: rs)

/-- QASearcher.get_answers: compute the similarity matrix, then per row take
the argmax and read the matched question and answer from the stored context.
The method assigns no attribute, so the state is returned unchanged. -/
def get_answers (B : Backend) (s : QASearcher) (questions : List String)
    (batch : Nat) : QASearcher × Except PyErr (List QARecord) :=
  (s, match cosine_similarity B s questions batch with
      | .error e => .error e
      | .ok sim => collectE (answerAt s questions sim) (List.range sim.length))

/-- Closed form of the embedding of a single text, independent of chunking:
the sum of its real token vectors divided by the clamped token count.  That
`get_embeddings` computes exactly this per text is proved below. -/
def embedOne (B : Backend) (t : String) : List ℚ :=
  (List.range B.dim).map (fun d =>
    ((List.range (B.numTok t)).map (fun k => B.tokEntry t k d)).sum
    / max ((B.numTok t : ℚ)) eps9)

/-- Index `k` is the first index of `l` attaining the maximum entry. -/
def IsFirstMax (l : List ℚ) (k : Nat) : Prop :=
  k < l.length ∧ (∀ j, j < l.length → l.getD j 0 ≤ l.getD k 0) ∧
    (∀ j, j < k → l.getD j 0 < l.getD k 0)

/-- The stored state after a successful context set: answers and questions
as passed in, embeddings the transpose of the normalized per-text vectors. -/
def contextState (B : Backend) (qs ans : List String) : QASearcher :=
  { answers := some ans, questions := some qs,
    question_embeddings := some (transposeM ((qs.map (embedOne B)).map (l2normalize B))) }

/-- The similarity score the engine assigns between a query text and a
stored context text: the inner product of their L2-normalized embeddings. -/
def scoreOf (B : Backend) (q t : String) : ℚ :=
  dot (l2normalize B (embedOne B q)) (l2normalize B (embedOne B t))

/-- A concrete backend used to instantiate hypotheses: dimension 2, one
token per text except the degenerate text "z" which tokenizes to nothing,
constant junk at padding positions, square root identically 1. -/
def B0 : Backend where
  dim := 2
  numTok := fun t => if t = ("z") then 0 else 1
  tokEntry := fun t _ d => if t = ("b") then (if d = 1 then 1 else 0)
    else (if d = 0 then 1 else 0)
  junk := fun _ _ _ _ => 5
  sqrtFn := fun _ => 1

/-! ### Basic list lemmas -/

theorem getD_range_map {α : Type _} (f : Nat → α) (d : α) {k n : Nat} (h : k < n) :
    ((List.range n).map f).getD k d = f k := by
  rw [List.getD_eq_getElem?_getD, List.getElem?_map, List.getElem?_range h]
  rfl

theorem rangeGetD {α : Type _} (d : α) : ∀ l : List α,
    (List.range l.length).map (fun i => l.getD i d) = l
  | [] => rfl
  | x :: xs => by
    rw [List.length_cons, List.range_succ_eq_map, List.map_cons, List.map_map]
    have h2 : ((fun i => (x :: xs).getD i d) ∘ Nat.succ) = fun i => xs.getD i d := by
      funext i
      simp [Function.comp, List.getD_cons_succ]
    rw [h2, rangeGetD d xs]
    simp [List.getD_cons_zero]

theorem map_eq_range_map {α β : Type _} (d : α) (g : α → β) (l : List α) :
    l.map g = (List.range l.length).map (fun i => g (l.getD i d)) := by
  conv_lhs => rw [← rangeGetD d l]
  rw [List.map_map]
  rfl

theorem le_foldr_max : ∀ (l : List Nat) (a : Nat), a ∈ l → a ≤ l.foldr max 0
  | x :: xs, a, h => by
    rcases List.mem_cons.mp h with h | h
    · subst h
      exact Nat.le_max_left _ _
    · exact Nat.le_trans (le_foldr_max xs a h) (Nat.le_max_right _ _)

theorem numTok_le_maxLen (B : Backend) {c : List String} {t : String} (h : t ∈ c) :
    B.numTok t ≤ maxLen B c :=
  le_foldr_max _ _ (List.mem_map_of_mem B.numTok h)

/-! ### Mean pooling collapses to a per-text closed form -/

theorem sum_map_range (f : Nat → ℚ) : ∀ n : Nat,
    ((List.range n).map f).sum = ∑ k ∈ Finset.range n, f k
  | 0 => by simp
  | n + 1 => by
    rw [List.range_succ, List.map_append, List.sum_append,
      Finset.sum_range_succ, sum_map_range f n]
    simp

theorem sum_maskVal (B : Backend) (t : String) {L : Nat} (h : B.numTok t ≤ L) :
    (∑ k ∈ Finset.range L, maskVal B t k) = (B.numTok t : ℚ) := by
  rw [← Finset.sum_subset (Finset.range_subset.mpr h)
      (fun x _ hx => by
        simp only [maskVal, if_neg (fun hlt => hx (Finset.mem_range.mpr hlt))])]
  have hone : ∀ k ∈ Finset.range (B.numTok t), maskVal B t k = 1 := fun k hk => by
    simp only [maskVal, if_pos (Finset.mem_range.mp hk)]
  rw [Finset.sum_congr rfl hone, Finset.sum_const, Finset.card_range,
    nsmul_eq_mul, mul_one]

theorem sum_tokRow (B : Backend) (c : List String) (r : Nat) (t : String) (d : Nat)
    {L : Nat} (h : B.numTok t ≤ L) :
    (∑ k ∈ Finset.range L, tokMat B c r t k d * maskVal B t k)
      = ∑ k ∈ Finset.range (B.numTok t), B.tokEntry t k d := by
  rw [← Finset.sum_subset (Finset.range_subset.mpr h)
      (fun x _ hx => by
        have hge : ¬ x < B.numTok t := fun hlt => hx (Finset.mem_range.mpr hlt)
        simp only [maskVal, if_neg hge, mul_zero])]
  exact Finset.sum_congr rfl (fun k hk => by
    have hk' : k < B.numTok t := Finset.mem_range.mp hk
    simp only [tokMat, maskVal, if_pos hk', mul_one])

theorem mean_pooling_chunk (B : Backend) (c : List String) (r : Nat) {t : String}
    (ht : t ∈ c) :
    mean_pooling B.dim (chunk_token_rows B c r t) (chunk_mask_row B c t)
      = embedOne B t := by
  unfold mean_pooling embedOne chunk_token_rows chunk_mask_row
  apply List.map_congr_left
  intro d hd
  have hd' : d < B.dim := List.mem_range.mp hd
  have hlen : ((List.range (maxLen B c)).map (fun k => maskVal B t k)).length
      = maxLen B c := by
    rw [List.length_map, List.length_range]
  rw [hlen]
  simp only [sum_map_range]
  have hnum : (∑ k ∈ Finset.range (maxLen B c),
      (((List.range (maxLen B c)).map (fun k =>
        (List.range B.dim).map (fun d => tokMat B c r t k d))).getD k []).getD d 0
        * ((List.range (maxLen B c)).map (fun k => maskVal B t k)).getD k 0)
      = ∑ k ∈ Finset.range (maxLen B c), tokMat B c r t k d * maskVal B t k := by
    apply Finset.sum_congr rfl
    intro k hk
    have hk' : k < maxLen B c := Finset.mem_range.mp hk
    rw [getD_range_map _ _ hk', getD_range_map _ _ hk', getD_range_map _ _ hd']
  have hden : (∑ k ∈ Finset.range (maxLen B c),
      ((List.range (maxLen B c)).map (fun k => maskVal B t k)).getD k 0)
      = ∑ k ∈ Finset.range (maxLen B c), maskVal B t k := by
    apply Finset.sum_congr rfl
    intro k hk
    rw [getD_range_map _ _ (Finset.mem_range.mp hk)]
  rw [hnum, hden, sum_tokRow B c r t d (numTok_le_maxLen B ht),
    sum_maskVal B t (numTok_le_maxLen B ht)]

theorem enum_snd_mem {α : Type _} {l : List α} {p : Nat × α} (h : p ∈ l.enum) :
    p.2 ∈ l := by
  have := List.mem_map_of_mem Prod.snd h
  rwa [List.enum_map_snd] at this

theorem processChunk_eq (B : Backend) (c : List String) :
    processChunk B c = c.map (embedOne B) := by
  unfold processChunk
  rw [List.map_congr_left (g := fun p : Nat × String => embedOne B p.2)
      (fun p hp => mean_pooling_chunk B c p.1 (enum_snd_mem hp))]
  have : (fun p : Nat × String => embedOne B p.2) = embedOne B ∘ Prod.snd := rfl
  rw [this, ← List.map_map, List.enum_map_snd]

/-! ### The batching loop concatenates to the per-text embedding list -/

theorem range'_shift (b : Nat) : ∀ (c s : Nat),
    List.range' (s + b) c b = (List.range' s c b).map (fun i => i + b)
  | 0, _ => rfl
  | c + 1, s => by
    rw [List.range'_succ, List.range'_succ, List.map_cons, range'_shift b c (s + b)]

theorem batchCount_succ {n b : Nat} (hn : 0 < n) (hb : 0 < b) :
    (n + b - 1) / b = (n - 1) / b + 1 := by
  have h1 : n + b - 1 = (n - 1) + b := by omega
  rw [h1, Nat.add_div_right _ hb]

theorem flatten_slices {α : Type _} (b : Nat) (hb : 0 < b) : ∀ (n : Nat) (l : List α),
    l.length = n →
    ((batchStarts l.length b).map (fun i => (l.drop i).take b)).flatten = l := by
  intro n
  induction n using Nat.strong_induction_on with
  | _ n IH =>
    intro l hl
    match l with
    | [] =>
      have hc : (0 + b - 1) / b = 0 := Nat.div_eq_of_lt (by omega)
      simp [batchStarts, hc]
    | x :: xs =>
      have hpos : 0 < (x :: xs).length := by simp
      rw [batchStarts, batchCount_succ hpos hb, List.range'_succ, List.map_cons,
        List.flatten_cons]
      have hshift : List.range' (0 + b) (((x :: xs).length - 1) / b) b
          = (List.range' 0 (((x :: xs).length - 1) / b) b).map (fun i => i + b) :=
        range'_shift b _ 0
      rw [hshift, List.map_map]
      have hcomp : ((fun i => (((x :: xs).drop i).take b)) ∘ fun i => i + b)
          = fun i => ((((x :: xs).drop b).drop i).take b) := by
        funext i
        simp only [Function.comp, List.drop_drop]
        rw [Nat.add_comm b i]
      rw [hcomp]
      have hcount : ((x :: xs).length - 1) / b = (((x :: xs).drop b).length + b - 1) / b := by
        rcases Nat.lt_or_ge (x :: xs).length b with hlt | hge
        · have h1 : ((x :: xs).drop b).length = 0 := by
            rw [List.length_drop]
            omega
          rw [h1]
          rw [Nat.div_eq_of_lt (by omega), Nat.div_eq_of_lt (by omega)]
        · rw [List.length_drop]
          congr 1
          omega
      have hlen2 : ((x :: xs).drop b).length < n := by
        rw [List.length_drop]
        omega
      have := IH ((x :: xs).drop b).length hlen2 ((x :: xs).drop b) rfl
      rw [batchStarts] at this
      rw [hcount, this, List.drop_zero, List.take_append_drop]

theorem get_embeddings_eq (B : Backend) {texts : List String} {b : Nat}
    (hb : 0 < b) (ht : texts ≠ []) :
    get_embeddings B texts b = .ok (texts.map (embedOne B)) := by
  unfold get_embeddings
  rw [if_neg (Nat.pos_iff_ne_zero.mp hb)]
  have hstarts : batchStarts texts.length b
      = 0 :: List.range' b ((texts.length - 1) / b) b := by
    rw [batchStarts, batchCount_succ (List.length_pos.mpr ht) hb, List.range'_succ,
      Nat.zero_add]
  have hne : ((batchStarts texts.length b).map
      (fun i => processChunk B ((texts.drop i).take b))).isEmpty = false := by
    rw [hstarts]
    rfl
  simp only [hne, Bool.false_eq_true, if_false]
  congr 1
  have hpc : ∀ i ∈ batchStarts texts.length b,
      processChunk B ((texts.drop i).take b)
        = ((texts.drop i).take b).map (embedOne B) :=
    fun i _ => processChunk_eq B _
  rw [List.map_congr_left hpc]
  have hmj : ((batchStarts texts.length b).map
      (fun i => ((texts.drop i).take b).map (embedOne B)))
      = ((batchStarts texts.length b).map (fun i => (texts.drop i).take b)).map
          (List.map (embedOne B)) := by
    rw [List.map_map]
    rfl
  rw [hmj, ← List.map_flatten, flatten_slices b hb texts.length texts rfl]

theorem get_embeddings_nil (B : Backend) {b : Nat} (hb : 0 < b) :
    get_embeddings B [] b = .error .runtimeError := by
  unfold get_embeddings
  rw [if_neg (Nat.pos_iff_ne_zero.mp hb)]
  have hc : (b - 1) / b = 0 := Nat.div_eq_of_lt (by omega)
  simp [batchStarts, hc]

/-- C5: partitioning the texts into consecutive chunks of at most
`batch_size` items never changes the resulting vectors: for any two positive
batch sizes (in particular 1 versus the length of the input, the sizes named
by the spec), `get_embeddings` returns identical results — identical vector
lists on nonempty input, and the identical RuntimeError on empty input.
Equality is exact, hence within every tolerance. -/
theorem get_embeddings_batch_invariant (B : Backend) (texts : List String)
    {b1 b2 : Nat} (h1 : 0 < b1) (h2 : 0 < b2) :
    get_embeddings B texts b1 = get_embeddings B texts b2 := by
  match texts with
  | [] => rw [get_embeddings_nil B h1, get_embeddings_nil B h2]
  | x :: xs =>
    rw [get_embeddings_eq B h1 (by simp), get_embeddings_eq B h2 (by simp)]

/-- Witness for C5: two texts embedded with batch size 1 and batch size 2
agree, at the concrete backend. -/
theorem get_embeddings_batch_invariant_w :
    (0 : Nat) < 1 ∧ (0 : Nat) < 2 ∧
    get_embeddings B0 (["a", "b"]) 1 = get_embeddings B0 (["a", "b"]) 2 :=
  ⟨by decide, by decide,
    get_embeddings_batch_invariant B0 (["a", "b"]) (by decide) (by decide)⟩

/-! ### Tensor.argmax returns the first maximal index -/

theorem getD_append_at {α : Type _} (l1 : List α) (y : α) (l2 : List α) (d : α) :
    (l1 ++ y :: l2).getD l1.length d = y := by
  rw [List.getD_eq_getElem?_getD, List.getElem?_append_right (Nat.le_refl _)]
  simp

theorem argmaxGo_spec (rest : List ℚ) : ∀ (pre : List ℚ) (bi : Nat),
    bi < pre.length →
    (∀ j, j < pre.length → pre.getD j 0 ≤ pre.getD bi 0) →
    (∀ j, j < bi → pre.getD j 0 < pre.getD bi 0) →
    IsFirstMax (pre ++ rest) (argmaxGo (pre.getD bi 0) bi pre.length rest) := by
  induction rest with
  | nil =>
    intro pre bi h1 h2 h3
    rw [argmaxGo, List.append_nil]
    exact ⟨h1, h2, h3⟩
  | cons y ys IH =>
    intro pre bi h1 h2 h3
    rw [argmaxGo, show pre ++ y :: ys = (pre ++ [y]) ++ ys from by simp]
    have hlen1 : (pre ++ [y]).length = pre.length + 1 := by simp
    have hat : (pre ++ [y]).getD pre.length 0 = y := getD_append_at pre y [] 0
    by_cases hlt : pre.getD bi 0 < y
    · rw [if_pos hlt]
      have h1' : pre.length < (pre ++ [y]).length := by omega
      have h2' : ∀ j, j < (pre ++ [y]).length →
          (pre ++ [y]).getD j 0 ≤ (pre ++ [y]).getD pre.length 0 := by
        intro j hj
        rw [hat]
        rcases Nat.lt_or_ge j pre.length with hj' | hj'
        · rw [List.getD_append pre [y] 0 j hj']
          exact le_of_lt (lt_of_le_of_lt (h2 j hj') hlt)
        · have hj2 : j = pre.length := by omega
          rw [hj2, hat]
      have h3' : ∀ j, j < pre.length →
          (pre ++ [y]).getD j 0 < (pre ++ [y]).getD pre.length 0 := by
        intro j hj
        rw [hat, List.getD_append pre [y] 0 j hj]
        exact lt_of_le_of_lt (h2 j hj) hlt
      have := IH (pre ++ [y]) pre.length h1' h2' (fun j hj => h3' j hj)
      rw [hat, hlen1] at this
      exact this
    · rw [if_neg hlt]
      have hyle : y ≤ pre.getD bi 0 := le_of_not_lt hlt
      have hbi : (pre ++ [y]).getD bi 0 = pre.getD bi 0 :=
        List.getD_append pre [y] 0 bi h1
      have h1' : bi < (pre ++ [y]).length := by omega
      have h2' : ∀ j, j < (pre ++ [y]).length →
          (pre ++ [y]).getD j 0 ≤ (pre ++ [y]).getD bi 0 := by
        intro j hj
        rw [hbi]
        rcases Nat.lt_or_ge j pre.length with hj' | hj'
        · rw [List.getD_append pre [y] 0 j hj']
          exact h2 j hj'
        · have hj2 : j = pre.length := by omega
          rw [hj2, hat]
          exact hyle
      have h3' : ∀ j, j < bi →
          (pre ++ [y]).getD j 0 < (pre ++ [y]).getD bi 0 := by
        intro j hj
        rw [hbi, List.getD_append pre [y] 0 j (by omega)]
        exact h3 j hj
      have := IH (pre ++ [y]) bi h1' h2' h3'
      rw [hbi, hlen1] at this
      exact this

theorem argmaxIdx_firstMax (x : ℚ) (xs : List ℚ) :
    IsFirstMax (x :: xs) (argmaxGo x 0 1 xs) := by
  have h := argmaxGo_spec xs [x] 0 (by simp)
    (by
      intro j hj
      have : j = 0 := by
        simp only [List.length_singleton] at hj
        omega
      rw [this])
    (by
      intro j hj
      omega)
  simpa using h

theorem argmaxE_ok {row : List ℚ} {k : Nat} (h : argmaxE row = .ok k) :
    IsFirstMax row k := by
  match row with
  | [] => exact absurd h (by rw [argmaxE]; exact fun hc => by cases hc)
  | x :: xs =>
    have hk : k = argmaxGo x 0 1 xs := by
      rw [argmaxE] at h
      cases h
      rfl
    rw [hk]
    exact argmaxIdx_firstMax x xs

/-! ### torch.mm against the stored transpose scores each query row against
every context row -/

theorem getD_map_lt {α β : Type _} (l : List α) (f : α → β) {j : Nat}
    (hj : j < l.length) (d : β) (d2 : α) :
    (l.map f).getD j d = f (l.getD j d2) := by
  rw [List.getD_eq_getElem?_getD, List.getElem?_map, List.getElem?_eq_getElem hj,
    List.getD_eq_getElem l d2 hj]
  rfl

theorem getD_mem {α : Type _} (l : List α) (d : α) {j : Nat} (hj : j < l.length) :
    l.getD j d ∈ l := by
  rw [List.getD_eq_getElem l d hj]
  exact List.getElem_mem hj

theorem matMul_transposeM (A : List (List ℚ)) {C : List (List ℚ)} {D : Nat}
    (hD : 0 < D) (hC : ∀ c ∈ C, c.length = D) :
    matMul A (transposeM C) = A.map (fun q => C.map (fun c => dot q c)) := by
  match C with
  | [] =>
    unfold matMul transposeM numColsM
    simp
  | c0 :: C' =>
    have hcols : numColsM (c0 :: C') = D := hC c0 (by simp)
    have htr : transposeM (c0 :: C')
        = (List.range D).map (fun d => (c0 :: C').map (fun r => r.getD d 0)) := by
      unfold transposeM
      rw [hcols]
    have hncols : numColsM (transposeM (c0 :: C')) = (c0 :: C').length := by
      rw [htr]
      match D, hD with
      | D' + 1, _ =>
        rw [List.range_succ_eq_map]
        simp [numColsM]
    unfold matMul
    simp only [hncols]
    apply List.map_congr_left
    intro r _
    have hcol : ∀ j, j < (c0 :: C').length →
        colM (transposeM (c0 :: C')) j = (c0 :: C').getD j [] := by
      intro j hj
      rw [htr]
      unfold colM
      rw [List.map_map]
      have hfun : ∀ d ∈ List.range D,
          ((fun r => r.getD j 0) ∘ fun d => (c0 :: C').map (fun r => r.getD d 0)) d
            = ((c0 :: C').getD j []).getD d 0 := by
        intro d _
        exact getD_map_lt (c0 :: C') _ hj 0 []
      rw [List.map_congr_left hfun]
      have hlenj : ((c0 :: C').getD j []).length = D :=
        hC _ (getD_mem (c0 :: C') [] hj)
      conv_lhs => rw [← hlenj]
      exact rangeGetD 0 ((c0 :: C').getD j [])
    have hinner : ∀ j ∈ List.range (c0 :: C').length,
        dot r (colM (transposeM (c0 :: C')) j) = dot r ((c0 :: C').getD j []) := by
      intro j hj
      rw [hcol j (List.mem_range.mp hj)]
    rw [List.map_congr_left hinner, ← map_eq_range_map [] (fun c => dot r c) (c0 :: C')]

/-! ### Inversion of a successful set_context_qa and the resulting
similarity matrix -/

theorem set_context_ok {B : Backend} {s0 : QASearcher} {qs ans : List String}
    {s1 : QASearcher} (h : set_context_qa B s0 qs ans = (s1, .ok ())) :
    qs ≠ [] ∧ s1 = contextState B qs ans := by
  match qs with
  | [] =>
    exfalso
    rw [set_context_qa, get_q_embeddings, get_embeddings_nil B (by norm_num)] at h
    exact absurd (congrArg Prod.snd h) (by simp)
  | q :: qs' =>
    rw [set_context_qa, get_q_embeddings,
      get_embeddings_eq B (by norm_num) (List.cons_ne_nil q qs')] at h
    refine ⟨List.cons_ne_nil q qs', ?_⟩
    have := congrArg Prod.fst h
    simp only at this
    rw [← this]
    rfl

theorem range_getD {i n : Nat} (h : i < n) : (List.range n).getD i 0 = i := by
  rw [List.getD_eq_getElem?_getD, List.getElem?_range h]
  rfl

theorem embedOne_length (B : Backend) (t : String) : (embedOne B t).length = B.dim := by
  unfold embedOne
  rw [List.length_map, List.length_range]

theorem l2normalize_length (B : Backend) (v : List ℚ) :
    (l2normalize B v).length = v.length :=
  List.length_map v _

theorem cnRows_length (B : Backend) (qs : List String) :
    ∀ c ∈ (qs.map (embedOne B)).map (l2normalize B), c.length = B.dim := by
  intro c hc
  rw [List.map_map] at hc
  obtain ⟨t, _, rfl⟩ := List.mem_map.mp hc
  simp only [Function.comp]
  rw [l2normalize_length, embedOne_length]

theorem get_embeddings_ok {B : Backend} {texts : List String} {batch : Nat}
    {emb : List (List ℚ)} (h : get_embeddings B texts batch = .ok emb) :
    0 < batch ∧ texts ≠ [] ∧ emb = texts.map (embedOne B) := by
  rcases Nat.eq_zero_or_pos batch with hb | hb
  · subst hb
    rw [get_embeddings, if_pos rfl] at h
    cases h
  · match texts with
    | [] =>
      rw [get_embeddings_nil B hb] at h
      cases h
    | t :: ts =>
      rw [get_embeddings_eq B hb (List.cons_ne_nil t ts)] at h
      cases h
      exact ⟨hb, List.cons_ne_nil t ts, rfl⟩

/-- The similarity matrix computed against a successfully stored context is
the matrix of inner products of the normalized query embeddings against the
normalized context embeddings, row per query, column per context entry. -/
theorem cosine_similarity_eq {B : Backend} (hD : 0 < B.dim) (qs ans : List String)
    (queries : List String) (batch : Nat) (hb : 0 < batch) (hquer : queries ≠ []) :
    cosine_similarity B (contextState B qs ans) queries batch
      = .ok ((queries.map (fun t => l2normalize B (embedOne B t))).map
          (fun qv => (qs.map (fun t => l2normalize B (embedOne B t))).map
            (fun cv => dot qv cv))) := by
  rw [cosine_similarity, get_embeddings_eq B hb hquer]
  show Except.ok (matMul ((queries.map (embedOne B)).map (l2normalize B))
    (transposeM ((qs.map (embedOne B)).map (l2normalize B)))) = _
  rw [matMul_transposeM _ hD (cnRows_length B qs)]
  congr 1
  simp only [List.map_map]
  apply List.map_congr_left
  intro t _
  simp only [Function.comp_apply]
  apply List.map_congr_left
  intro u _
  simp only [Function.comp_apply]

/-! ### Inversion and construction for the response loop -/

theorem lookup_ok {α : Type _} {l : List α} {i : Nat} {a : α} :
    lookup l i = .ok a ↔ l[i]? = some a := by
  unfold lookup
  cases h : l[i]? with
  | none =>
    constructor
    · intro hc
      cases hc
    · intro hc
      cases hc
  | some b =>
    constructor
    · intro hc
      cases hc
      rfl
    · intro hc
      cases hc
      rfl

theorem asList_ok {o : Option (List String)} {l : List String} :
    asList o = .ok l ↔ o = some l := by
  unfold asList
  cases o with
  | none =>
    constructor
    · intro hc
      cases hc
    · intro hc
      cases hc
  | some m =>
    constructor
    · intro hc
      cases hc
      rfl
    · intro hc
      cases hc
      rfl

theorem answerAt_ok {s : QASearcher} {questions : List String}
    {sim : List (List ℚ)} {i : Nat} {r : QARecord}
    (h : answerAt s questions sim i = .ok r) :
    ∃ row best qs ans,
      sim[i]? = some row ∧ argmaxE row = .ok best ∧ s.questions = some qs ∧
      qs[best]? = some r.best_q ∧ s.answers = some ans ∧
      ans[best]? = some r.best_a ∧ questions[i]? = some r.orig_q := by
  rw [answerAt] at h
  split at h
  · cases h
  · rename_i row h1
    split at h
    · cases h
    · rename_i best h2
      split at h
      · cases h
      · rename_i qs h3
        split at h
        · cases h
        · rename_i bq h4
          split at h
          · cases h
          · rename_i ans h5
            split at h
            · cases h
            · rename_i ba h6
              split at h
              · cases h
              · rename_i oq h7
                cases h
                exact ⟨row, best, qs, ans, lookup_ok.mp h1, h2,
                  asList_ok.mp h3, lookup_ok.mp h4, asList_ok.mp h5,
                  lookup_ok.mp h6, lookup_ok.mp h7⟩

theorem answerAt_build {s : QASearcher} {questions qs ans : List String}
    {sim : List (List ℚ)} {i k : Nat}
    (hq : s.questions = some qs) (ha : s.answers = some ans)
    (hrow : i < sim.length) (hargmax : argmaxE (sim.getD i []) = .ok k)
    (hk1 : k < qs.length) (hk2 : k < ans.length) (hi : i < questions.length) :
    answerAt s questions sim i
      = .ok { orig_q := questions.getD i rec0.orig_q,
              best_q := qs.getD k rec0.orig_q,
              best_a := ans.getD k rec0.orig_q } := by
  have h1 : lookup sim i = .ok (sim.getD i []) := by
    rw [lookup_ok, List.getD_eq_getElem sim [] hrow, List.getElem?_eq_getElem hrow]
  have h3 : asList s.questions = .ok qs := asList_ok.mpr hq
  have h4 : lookup qs k = .ok (qs.getD k rec0.orig_q) := by
    rw [lookup_ok, List.getD_eq_getElem qs _ hk1, List.getElem?_eq_getElem hk1]
  have h5 : asList s.answers = .ok ans := asList_ok.mpr ha
  have h6 : lookup ans k = .ok (ans.getD k rec0.orig_q) := by
    rw [lookup_ok, List.getD_eq_getElem ans _ hk2, List.getElem?_eq_getElem hk2]
  have h7 : lookup questions i = .ok (questions.getD i rec0.orig_q) := by
    rw [lookup_ok, List.getD_eq_getElem questions _ hi, List.getElem?_eq_getElem hi]
  simp only [answerAt, h1, hargmax, h3, h4, h5, h6, h7]

theorem collectE_ok {f : Nat → Except PyErr QARecord} :
    ∀ (l : List Nat) (res : List QARecord), collectE f l = .ok res →
      res.length = l.length ∧
      ∀ i, i < l.length → f (l.getD i 0) = .ok (res.getD i rec0) := by
  intro l
  induction l with
  | nil =>
    intro res h
    rw [collectE] at h
    cases h
    exact ⟨rfl, fun i hi => absurd hi (by simp)⟩
  | cons x xs IH =>
    intro res h
    rw [collectE] at h
    cases hfx : f x with
    | error e =>
      rw [hfx] at h
      cases h
    | ok r =>
      rw [hfx] at h
      cases hrec : collectE f xs with
      | error e =>
        rw [hrec] at h
        cases h
      | ok rs =>
        rw [hrec] at h
        cases h
        obtain ⟨hlen, hat⟩ := IH rs hrec
        refine ⟨by simp [hlen], ?_⟩
        intro i hi
        match i with
        | 0 =>
          rw [List.getD_cons_zero, List.getD_cons_zero]
          exact hfx
        | i + 1 =>
          rw [List.getD_cons_succ, List.getD_cons_succ]
          exact hat i (by simpa using hi)

theorem collectE_ok_mem {f : Nat → Except PyErr QARecord} :
    ∀ (l : List Nat) (res : List QARecord), collectE f l = .ok res →
      ∀ r ∈ res, ∃ i ∈ l, f i = .ok r := by
  intro l
  induction l with
  | nil =>
    intro res h
    rw [collectE] at h
    cases h
    intro r hr
    cases hr
  | cons x xs IH =>
    intro res h
    rw [collectE] at h
    cases hfx : f x with
    | error e =>
      rw [hfx] at h
      cases h
    | ok r0 =>
      rw [hfx] at h
      cases hrec : collectE f xs with
      | error e =>
        rw [hrec] at h
        cases h
      | ok rs =>
        rw [hrec] at h
        cases h
        intro r hr
        rcases List.mem_cons.mp hr with hr | hr
        · subst hr
          exact ⟨x, by simp, hfx⟩
        · obtain ⟨i, hi, hfi⟩ := IH rs hrec r hr
          exact ⟨i, by simp [hi], hfi⟩

theorem collectE_build {f : Nat → Except PyErr QARecord} (g : Nat → QARecord) :
    ∀ (l : List Nat), (∀ i ∈ l, f i = .ok (g i)) →
      collectE f l = .ok (l.map g) := by
  intro l
  induction l with
  | nil =>
    intro _
    rfl
  | cons x xs IH =>
    intro h
    rw [collectE, h x (by simp), IH (fun i hi => h i (by simp [hi]))]
    rfl

/-! ### Inner products of normalized rows -/

theorem eps9_pos : (0 : ℚ) < eps9 := by norm_num [eps9]

theorem eps12_pos : (0 : ℚ) < eps12 := by norm_num [eps12]

theorem dot_eq_sum_min : ∀ (u v : List ℚ),
    dot u v = ∑ i ∈ Finset.range (min u.length v.length), u.getD i 0 * v.getD i 0
  | [], v => by simp [dot]
  | x :: xs, [] => by simp [dot]
  | x :: xs, y :: ys => by
    have ih := dot_eq_sum_min xs ys
    show (x * y + (List.zipWith (fun a b => a * b) xs ys).sum) = _
    rw [show dot xs ys = (List.zipWith (fun a b => a * b) xs ys).sum from rfl] at ih
    rw [ih, List.length_cons, List.length_cons, Nat.succ_min_succ,
      Finset.sum_range_succ']
    simp only [List.getD_cons_succ, List.getD_cons_zero]
    ring

theorem normSq_eq_dot : ∀ v : List ℚ, normSq v = dot v v
  | [] => rfl
  | x :: xs => by
    show x * x + (xs.map (fun x => x * x)).sum = x * x + dot xs xs
    rw [← normSq_eq_dot xs]
    rfl

theorem normSq_nonneg (v : List ℚ) : 0 ≤ normSq v := by
  rw [normSq_eq_dot, dot_eq_sum_min]
  exact Finset.sum_nonneg (fun i _ => mul_self_nonneg _)

theorem dot_map_div : ∀ (u v : List ℚ) (a b : ℚ),
    dot (u.map (fun x => x / a)) (v.map (fun y => y / b)) = dot u v / (a * b)
  | [], v, a, b => by simp [dot]
  | x :: xs, [], a, b => by simp [dot]
  | x :: xs, y :: ys, a, b => by
    show x / a * (y / b) + dot (xs.map (fun x => x / a)) (ys.map (fun y => y / b))
      = (x * y + dot xs ys) / (a * b)
    rw [dot_map_div xs ys a b, add_div, div_mul_div_comm]

theorem dot_sq_le (u v : List ℚ) (h : u.length = v.length) :
    (dot u v) ^ 2 ≤ normSq u * normSq v := by
  rw [normSq_eq_dot, normSq_eq_dot, dot_eq_sum_min, dot_eq_sum_min u u,
    dot_eq_sum_min v v, min_self, min_self, h, min_self]
  have h1 : ∑ i ∈ Finset.range v.length, u.getD i 0 * u.getD i 0
      = ∑ i ∈ Finset.range v.length, u.getD i 0 ^ 2 :=
    Finset.sum_congr rfl (fun i _ => (pow_two _).symm)
  have h2 : ∑ i ∈ Finset.range v.length, v.getD i 0 * v.getD i 0
      = ∑ i ∈ Finset.range v.length, v.getD i 0 ^ 2 :=
    Finset.sum_congr rfl (fun i _ => (pow_two _).symm)
  rw [h1, h2]
  exact Finset.sum_mul_sq_le_sq_mul_sq _ _ _

theorem rat_le_of_sq_le_sq {d S : ℚ} (h : d ^ 2 ≤ S ^ 2) (hS : 0 ≤ S) : d ≤ S := by
  nlinarith [sq_nonneg (d + S), sq_nonneg (d - S)]

theorem rat_neg_le_of_sq_le_sq {d S : ℚ} (h : d ^ 2 ≤ S ^ 2) (hS : 0 ≤ S) : -S ≤ d := by
  nlinarith [sq_nonneg (d + S), sq_nonneg (d - S)]

/-- Generic bound: the inner product of two equal-length vectors, divided by
clamped upper bounds of their norms, lies in [-1, 1]. -/
theorem div_dot_bounds {u v : List ℚ} (h : u.length = v.length)
    {su sv cu cv : ℚ} (hsu0 : 0 ≤ su) (hsv0 : 0 ≤ sv)
    (hsu : normSq u ≤ su ^ 2) (hsv : normSq v ≤ sv ^ 2)
    (hcu : su ≤ cu) (hcv : sv ≤ cv) (hcu0 : 0 < cu) (hcv0 : 0 < cv) :
    -1 ≤ dot u v / (cu * cv) ∧ dot u v / (cu * cv) ≤ 1 := by
  have hd2 : (dot u v) ^ 2 ≤ (su * sv) ^ 2 := by
    calc (dot u v) ^ 2 ≤ normSq u * normSq v := dot_sq_le u v h
    _ ≤ su ^ 2 * sv ^ 2 := by
        apply mul_le_mul hsu hsv (normSq_nonneg v) (sq_nonneg su)
    _ = (su * sv) ^ 2 := by ring
  have hS0 : 0 ≤ su * sv := mul_nonneg hsu0 hsv0
  have hup : dot u v ≤ su * sv := rat_le_of_sq_le_sq hd2 hS0
  have hlow : -(su * sv) ≤ dot u v := rat_neg_le_of_sq_le_sq hd2 hS0
  have hcc0 : 0 < cu * cv := mul_pos hcu0 hcv0
  have hcc : su * sv ≤ cu * cv :=
    mul_le_mul hcu hcv hsv0 (le_of_lt hcu0)
  constructor
  · rw [le_div_iff₀ hcc0]
    calc (-1 : ℚ) * (cu * cv) = -(cu * cv) := by ring
    _ ≤ -(su * sv) := by linarith
    _ ≤ dot u v := hlow
  · rw [div_le_one hcc0]
    exact le_trans hup hcc

theorem l2normalize_dot (B : Backend) (u v : List ℚ) :
    dot (l2normalize B u) (l2normalize B v)
      = dot u v
        / (max (B.sqrtFn (normSq u)) eps12 * max (B.sqrtFn (normSq v)) eps12) :=
  dot_map_div u v _ _

/-- Bound instantiated for two normalized embeddings, under the hypothesis
that the square root overestimates each norm. -/
theorem score_in_unit_interval (B : Backend) {q t : String}
    (hq : 0 ≤ B.sqrtFn (normSq (embedOne B q)) ∧
      normSq (embedOne B q) ≤ B.sqrtFn (normSq (embedOne B q)) ^ 2)
    (ht : 0 ≤ B.sqrtFn (normSq (embedOne B t)) ∧
      normSq (embedOne B t) ≤ B.sqrtFn (normSq (embedOne B t)) ^ 2) :
    -1 ≤ scoreOf B q t ∧ scoreOf B q t ≤ 1 := by
  rw [scoreOf, l2normalize_dot]
  exact div_dot_bounds
    (by rw [embedOne_length, embedOne_length])
    hq.1 ht.1 hq.2 ht.2
    (le_max_left _ _) (le_max_left _ _)
    (lt_of_lt_of_le eps12_pos (le_max_right _ _))
    (lt_of_lt_of_le eps12_pos (le_max_right _ _))

/-- A query scored against itself gives exactly 1 when the square root is
exact on its embedding and at least the clamp floor. -/
theorem score_self_eq_one (B : Backend) {q : String}
    (hexact : B.sqrtFn (normSq (embedOne B q)) ^ 2 = normSq (embedOne B q))
    (hfloor : eps12 ≤ B.sqrtFn (normSq (embedOne B q))) :
    scoreOf B q q = 1 := by
  rw [scoreOf, l2normalize_dot, max_eq_left hfloor, ← normSq_eq_dot]
  generalize hgen : B.sqrtFn (normSq (embedOne B q)) = s at hexact hfloor ⊢
  rw [← hexact, pow_two]
  have hpos : (0 : ℚ) < s := lt_of_lt_of_le eps12_pos hfloor
  exact div_self (ne_of_gt (mul_pos hpos hpos))

theorem getElem?_some_getD {α : Type _} {l : List α} {k : Nat} {a : α}
    (h : l[k]? = some a) (d : α) : k < l.length ∧ l.getD k d = a := by
  rcases List.getElem?_eq_some.mp h with ⟨hk, he⟩
  exact ⟨hk, by rw [List.getD_eq_getElem l d hk]; exact he⟩

theorem mem_of_getElem?_some {α : Type _} {l : List α} {k : Nat} {a : α}
    (h : l[k]? = some a) : a ∈ l := by
  rcases List.getElem?_eq_some.mp h with ⟨hk, he⟩
  rw [← he]
  exact List.getElem_mem hk

/-- Unfolding the result component of get_answers. -/
theorem get_answers_snd (B : Backend) (s : QASearcher) (questions : List String)
    (batch : Nat) :
    (get_answers B s questions batch).2
      = match cosine_similarity B s questions batch with
        | .error e => .error e
        | .ok sim => collectE (answerAt s questions sim) (List.range sim.length) :=
  rfl

theorem sim_row (B : Backend) (qs queries : List String) {i : Nat}
    (hi : i < queries.length) :
    ((queries.map (fun t => l2normalize B (embedOne B t))).map
      (fun qv => (qs.map (fun t => l2normalize B (embedOne B t))).map
        (fun cv => dot qv cv))).getD i []
    = (qs.map (fun t => l2normalize B (embedOne B t))).map
        (fun cv => dot (l2normalize B (embedOne B (queries.getD i rec0.orig_q))) cv) := by
  have hi' : i < (queries.map (fun t => l2normalize B (embedOne B t))).length := by
    rw [List.length_map]
    exact hi
  rw [getD_map_lt _ _ hi' ([] : List ℚ) ([] : List ℚ),
    getD_map_lt queries _ hi ([] : List ℚ) rec0.orig_q]

theorem sim_entry (B : Backend) (qs : List String) (q : String) {j : Nat}
    (hj : j < qs.length) :
    ((qs.map (fun t => l2normalize B (embedOne B t))).map
      (fun cv => dot (l2normalize B (embedOne B q)) cv)).getD j 0
    = scoreOf B q (qs.getD j rec0.orig_q) := by
  have hj' : j < (qs.map (fun t => l2normalize B (embedOne B t))).length := by
    rw [List.length_map]
    exact hj
  rw [getD_map_lt _ _ hj' (0 : ℚ) ([] : List ℚ),
    getD_map_lt qs _ hj ([] : List ℚ) rec0.orig_q, scoreOf]

/-- C1: for every query of a completed get_answers call against a context
stored by a successful set_context_qa (hence non-empty), the produced record
is built from a context index k whose stored L2-normalized embedding attains
the maximum inner product with the normalized embedding of that query, and
among exactly equal maximal scores k is the lowest such index; the whole
computation is a pure function, hence deterministic. -/
theorem get_answers_selects_first_max {B : Backend} (hD : 0 < B.dim)
    {s0 s1 : QASearcher} {qs ans queries : List String} {batch : Nat}
    {res : List QARecord}
    (hset : set_context_qa B s0 qs ans = (s1, .ok ()))
    (hget : (get_answers B s1 queries batch).2 = .ok res)
    {i : Nat} (hi : i < res.length) :
    ∃ k, k < qs.length ∧
      (res.getD i rec0).best_q = qs.getD k rec0.orig_q ∧
      (res.getD i rec0).best_a = ans.getD k rec0.orig_q ∧
      (∀ j, j < qs.length →
        scoreOf B (queries.getD i rec0.orig_q) (qs.getD j rec0.orig_q)
          ≤ scoreOf B (queries.getD i rec0.orig_q) (qs.getD k rec0.orig_q)) ∧
      (∀ j, j < qs.length →
        scoreOf B (queries.getD i rec0.orig_q) (qs.getD j rec0.orig_q)
          = scoreOf B (queries.getD i rec0.orig_q) (qs.getD k rec0.orig_q) →
        k ≤ j) := by
  obtain ⟨hqs, hs1⟩ := set_context_ok hset
  subst hs1
  rw [get_answers_snd] at hget
  split at hget
  · cases hget
  · rename_i sim hsim
    have hok : ∃ emb, get_embeddings B queries batch = .ok emb := by
      revert hsim
      rw [cosine_similarity]
      split
      · intro hc
        cases hc
      · rename_i emb hemb
        intro _
        exact ⟨emb, hemb⟩
    obtain ⟨emb, hemb⟩ := hok
    obtain ⟨hb, hquer, -⟩ := get_embeddings_ok hemb
    rw [cosine_similarity_eq hD qs ans queries batch hb hquer] at hsim
    injection hsim with hsim
    subst hsim
    obtain ⟨hlen, hat⟩ := collectE_ok _ _ hget
    rw [List.length_range] at hlen
    have hlenM : ((queries.map (fun t => l2normalize B (embedOne B t))).map
        (fun qv => (qs.map (fun t => l2normalize B (embedOne B t))).map
          (fun cv => dot qv cv))).length = queries.length := by
      rw [List.length_map, List.length_map]
    have hi' : i < queries.length := by omega
    have hAi := hat i (by rw [List.length_range]; omega)
    rw [range_getD (by omega)] at hAi
    obtain ⟨row, best, qs', ans', hrowq, hargmax, hq', hbq, ha', hba, hoq⟩ :=
      answerAt_ok hAi
    have hq2 : qs = qs' := by
      simp only [contextState] at hq'
      injection hq' with h
    subst hq2
    have ha2 : ans = ans' := by
      simp only [contextState] at ha'
      injection ha' with h
    subst ha2
    obtain ⟨hiM, hrow⟩ := getElem?_some_getD hrowq ([] : List ℚ)
    have hrowc : row = (qs.map (fun t => l2normalize B (embedOne B t))).map
        (fun cv => dot (l2normalize B (embedOne B (queries.getD i rec0.orig_q))) cv) := by
      rw [← hrow, sim_row B qs queries hi']
    have hfm := argmaxE_ok hargmax
    have hrlen : row.length = qs.length := by
      rw [hrowc, List.length_map, List.length_map]
    obtain ⟨hbq1, hbq2⟩ := getElem?_some_getD hbq rec0.orig_q
    obtain ⟨hba1, hba2⟩ := getElem?_some_getD hba rec0.orig_q
    refine ⟨best, by omega, hbq2.symm, hba2.symm, ?_, ?_⟩
    · intro j hj
      have hmax := hfm.2.1 j (by omega)
      rw [hrowc, sim_entry B qs _ hj, sim_entry B qs _ (by omega : best < qs.length)]
        at hmax
      exact hmax
    · intro j hj heq
      by_contra hcon
      have hjb : j < best := by omega
      have hstrict := hfm.2.2 j hjb
      rw [hrowc, sim_entry B qs _ hj, sim_entry B qs _ (by omega : best < qs.length)]
        at hstrict
      rw [heq] at hstrict
      exact lt_irrefl _ hstrict

/-- A successful set_context_qa call in closed form: any non-empty question
list is stored without further checks. -/
theorem set_context_qa_spec (B : Backend) (s : QASearcher)
    (qs ans : List String) (h : qs ≠ []) :
    set_context_qa B s qs ans = (contextState B qs ans, .ok ()) := by
  rw [set_context_qa, get_q_embeddings, get_embeddings_eq B (by norm_num) h]
  rfl

/-- Construction of a successful get_answers call: non-empty queries and a
positive batch against a successfully stored context whose answers cover the
questions always produce one record per query, built from question and
answer at the argmax index of its similarity row. -/
theorem get_answers_ok {B : Backend} (hD : 0 < B.dim) {s0 s1 : QASearcher}
    {qs ans : List String}
    (hset : set_context_qa B s0 qs ans = (s1, .ok ()))
    (hlen : qs.length ≤ ans.length)
    (queries : List String) (hquer : queries ≠ []) (batch : Nat) (hb : 0 < batch) :
    ∃ res, (get_answers B s1 queries batch).2 = .ok res ∧
      res.length = queries.length ∧
      ∀ i, i < queries.length →
        (res.getD i rec0).orig_q = queries.getD i rec0.orig_q ∧
        ∃ k, k < qs.length ∧
          (res.getD i rec0).best_q = qs.getD k rec0.orig_q ∧
          (res.getD i rec0).best_a = ans.getD k rec0.orig_q := by
  obtain ⟨hqs, hs1⟩ := set_context_ok hset
  subst hs1
  rw [get_answers_snd, cosine_similarity_eq hD qs ans queries batch hb hquer]
  set M := (queries.map (fun t => l2normalize B (embedOne B t))).map
    (fun qv => (qs.map (fun t => l2normalize B (embedOne B t))).map
      (fun cv => dot qv cv)) with hM
  have hMlen : M.length = queries.length := by
    rw [hM, List.length_map, List.length_map]
  have hbuild : ∀ i ∈ List.range M.length,
      answerAt (contextState B qs ans) queries M i
        = .ok { orig_q := queries.getD i rec0.orig_q,
                best_q := qs.getD ((argmaxIdx (M.getD i [])).getD 0) rec0.orig_q,
                best_a := ans.getD ((argmaxIdx (M.getD i [])).getD 0) rec0.orig_q } := by
    intro i hi
    have hiM : i < M.length := List.mem_range.mp hi
    have hiq : i < queries.length := by omega
    have hrowc : M.getD i [] = (qs.map (fun t => l2normalize B (embedOne B t))).map
        (fun cv => dot (l2normalize B (embedOne B (queries.getD i rec0.orig_q))) cv) := by
      rw [hM]
      exact sim_row B qs queries hiq
    have hrne : M.getD i [] ≠ [] := by
      rw [hrowc]
      intro hc
      have := congrArg List.length hc
      rw [List.length_map, List.length_map] at this
      exact hqs (List.length_eq_zero.mp this)
    obtain ⟨r0, rest, hr0⟩ := List.exists_cons_of_ne_nil hrne
    have hargmax : argmaxE (M.getD i []) = .ok ((argmaxIdx (M.getD i [])).getD 0) := by
      rw [hr0]
      rfl
    have hfm : IsFirstMax (M.getD i []) ((argmaxIdx (M.getD i [])).getD 0) := by
      rw [hr0]
      exact argmaxIdx_firstMax r0 rest
    have hrlen : (M.getD i []).length = qs.length := by
      rw [hrowc, List.length_map, List.length_map]
    have hklt : (argmaxIdx (M.getD i [])).getD 0 < qs.length := by
      rw [← hrlen]
      exact hfm.1
    exact answerAt_build rfl rfl hiM hargmax hklt (by omega) hiq
  refine ⟨(List.range M.length).map (fun i =>
    { orig_q := queries.getD i rec0.orig_q,
      best_q := qs.getD ((argmaxIdx (M.getD i [])).getD 0) rec0.orig_q,
      best_a := ans.getD ((argmaxIdx (M.getD i [])).getD 0) rec0.orig_q }), ?_, ?_, ?_⟩
  · exact collectE_build _ (List.range M.length) hbuild
  · rw [List.length_map, List.length_range, hMlen]
  · intro i hiq
    have hiM : i < M.length := by omega
    have hget : ((List.range M.length).map (fun i =>
        ({ orig_q := queries.getD i rec0.orig_q,
           best_q := qs.getD ((argmaxIdx (M.getD i [])).getD 0) rec0.orig_q,
           best_a := ans.getD ((argmaxIdx (M.getD i [])).getD 0) rec0.orig_q }
          : QARecord))).getD i rec0
        = { orig_q := queries.getD i rec0.orig_q,
            best_q := qs.getD ((argmaxIdx (M.getD i [])).getD 0) rec0.orig_q,
            best_a := ans.getD ((argmaxIdx (M.getD i [])).getD 0) rec0.orig_q } :=
      getD_range_map _ _ hiM
    rw [hget]
    refine ⟨rfl, (argmaxIdx (M.getD i [])).getD 0, ?_, rfl, rfl⟩
    have hrowc : M.getD i [] = (qs.map (fun t => l2normalize B (embedOne B t))).map
        (fun cv => dot (l2normalize B (embedOne B (queries.getD i rec0.orig_q))) cv) := by
      rw [hM]
      exact sim_row B qs queries hiq
    have hrne : M.getD i [] ≠ [] := by
      rw [hrowc]
      intro hc
      have := congrArg List.length hc
      rw [List.length_map, List.length_map] at this
      exact hqs (List.length_eq_zero.mp this)
    obtain ⟨r0, rest, hr0⟩ := List.exists_cons_of_ne_nil hrne
    have hfm : IsFirstMax (M.getD i []) ((argmaxIdx (M.getD i [])).getD 0) := by
      rw [hr0]
      exact argmaxIdx_firstMax r0 rest
    have hrlen : (M.getD i []).length = qs.length := by
      rw [hrowc, List.length_map, List.length_map]
    rw [← hrlen]
    exact hfm.1

/-- Witness for C1 at the concrete backend: context questions a and b with
answers x and y, query b, batch 1. -/
theorem get_answers_selects_first_max_w :
    ∃ res, (get_answers B0 (contextState B0 (["a", "b"]) (["x", "y"])) (["b"]) 1).2
        = .ok res ∧ 0 < res.length ∧
      ∃ k, k < (["a", "b"] : List String).length ∧
        (res.getD 0 rec0).best_q = (["a", "b"] : List String).getD k rec0.orig_q ∧
        (res.getD 0 rec0).best_a = (["x", "y"] : List String).getD k rec0.orig_q ∧
        (∀ j, j < (["a", "b"] : List String).length →
          scoreOf B0 ((["b"] : List String).getD 0 rec0.orig_q)
              ((["a", "b"] : List String).getD j rec0.orig_q)
            ≤ scoreOf B0 ((["b"] : List String).getD 0 rec0.orig_q)
              ((["a", "b"] : List String).getD k rec0.orig_q)) ∧
        (∀ j, j < (["a", "b"] : List String).length →
          scoreOf B0 ((["b"] : List String).getD 0 rec0.orig_q)
              ((["a", "b"] : List String).getD j rec0.orig_q)
            = scoreOf B0 ((["b"] : List String).getD 0 rec0.orig_q)
              ((["a", "b"] : List String).getD k rec0.orig_q) →
          k ≤ j) := by
  have hset := set_context_qa_spec B0 initS (["a", "b"]) (["x", "y"]) (by simp)
  obtain ⟨res, hres, hlen, -⟩ := get_answers_ok (by decide) hset (by simp)
    (["b"]) (by simp) 1 (by decide)
  refine ⟨res, hres, by simp [hlen], ?_⟩
  exact get_answers_selects_first_max (by decide) hset hres (by simp [hlen])

/-- C2 counterexample: with a stored context, the empty query list does not
yield an empty record list — get_answers raises RuntimeError, from torch.cat
over the empty list of chunk embeddings inside the embedder. -/
theorem get_answers_empty_queries_cex :
    (get_answers B0 (contextState B0 (["a"]) (["x"])) ([] : List String) 32).2
      = .error .runtimeError := rfl

/-- C2 (amended): for every NON-EMPTY query sequence and POSITIVE batch
size, against a context stored with equally many questions and answers,
get_answers returns exactly one record per query, in input order: record i
carries the text of query i, and its matched question and matched answer
are read at one and the same best index of the stored context.  The
original quantification over every query sequence and every batch size
fails: the empty query list and batch size 0 each raise instead. -/
theorem get_answers_one_record_per_query {B : Backend} (hD : 0 < B.dim)
    {s0 s1 : QASearcher} {qs ans : List String}
    (hset : set_context_qa B s0 qs ans = (s1, .ok ()))
    (hlen : qs.length = ans.length)
    (queries : List String) (hquer : queries ≠ []) (batch : Nat) (hb : 0 < batch) :
    ∃ res, (get_answers B s1 queries batch).2 = .ok res ∧
      res.length = queries.length ∧
      ∀ i, i < queries.length →
        (res.getD i rec0).orig_q = queries.getD i rec0.orig_q ∧
        ∃ k, k < qs.length ∧
          (res.getD i rec0).best_q = qs.getD k rec0.orig_q ∧
          (res.getD i rec0).best_a = ans.getD k rec0.orig_q :=
  get_answers_ok hD hset (le_of_eq hlen) queries hquer batch hb

/-- Witness for the amended C2 at the concrete backend. -/
theorem get_answers_one_record_per_query_w :
    ∃ res, (get_answers B0 (contextState B0 (["a", "b"]) (["x", "y"])) (["b"]) 1).2
        = .ok res ∧
      res.length = (["b"] : List String).length ∧
      ∀ i, i < (["b"] : List String).length →
        (res.getD i rec0).orig_q = (["b"] : List String).getD i rec0.orig_q ∧
        ∃ k, k < (["a", "b"] : List String).length ∧
          (res.getD i rec0).best_q = (["a", "b"] : List String).getD k rec0.orig_q ∧
          (res.getD i rec0).best_a = (["x", "y"] : List String).getD k rec0.orig_q :=
  get_answers_one_record_per_query (by decide)
    (set_context_qa_spec B0 initS (["a", "b"]) (["x", "y"]) (by simp))
    (by simp) (["b"]) (by simp) 1 (by decide)

/-- C10: get_answers is a pure read of the searcher: the state component of
its result is the unchanged input state, for every backend, state, query
list and batch size — the translated method body assigns no field. -/
theorem get_answers_state_frame (B : Backend) (s : QASearcher)
    (questions : List String) (batch : Nat) :
    (get_answers B s questions batch).1 = s := rfl

/-- C9: context replacement is total — after a successful second
set_context_qa, every record any completed get_answers call returns draws
its matched question and matched answer from the second context; the
resulting state does not depend on the first context at all. -/
theorem context_replacement_total {B : Backend} {s0 s1 s2 : QASearcher}
    {qA aA qB aB queries : List String} {batch : Nat} {res : List QARecord}
    (hsetA : set_context_qa B s0 qA aA = (s1, .ok ()))
    (hsetB : set_context_qa B s1 qB aB = (s2, .ok ()))
    (hget : (get_answers B s2 queries batch).2 = .ok res) :
    s2 = contextState B qB aB ∧
    ∀ r ∈ res, r.best_q ∈ qB ∧ r.best_a ∈ aB := by
  obtain ⟨hqB, hs2⟩ := set_context_ok hsetB
  subst hs2
  refine ⟨rfl, ?_⟩
  rw [get_answers_snd] at hget
  split at hget
  · cases hget
  · rename_i sim hsim
    intro r hr
    obtain ⟨i, hi, hfi⟩ := collectE_ok_mem _ _ hget r hr
    obtain ⟨row, best, qs', ans', hrowq, hargmax, hq', hbq, ha', hba, hoq⟩ :=
      answerAt_ok hfi
    have hq2 : qB = qs' := by
      simp only [contextState] at hq'
      injection hq' with h
    subst hq2
    have ha2 : aB = ans' := by
      simp only [contextState] at ha'
      injection ha' with h
    subst ha2
    exact ⟨mem_of_getElem?_some hbq, mem_of_getElem?_some hba⟩

/-- Witness for C9 at the concrete backend: context A is q0 with answer z0,
context B is a and b with answers x and y. -/
theorem context_replacement_total_w :
    ∃ res, (get_answers B0 (contextState B0 (["a", "b"]) (["x", "y"])) (["b"]) 1).2
        = .ok res ∧
      (contextState B0 (["a", "b"]) (["x", "y"])
        = contextState B0 (["a", "b"]) (["x", "y"])) ∧
      ∀ r ∈ res, r.best_q ∈ (["a", "b"] : List String) ∧
        r.best_a ∈ (["x", "y"] : List String) := by
  have hsetA := set_context_qa_spec B0 initS (["q0"]) (["z0"]) (by simp)
  have hsetB := set_context_qa_spec B0 (contextState B0 (["q0"]) (["z0"]))
    (["a", "b"]) (["x", "y"]) (by simp)
  obtain ⟨res, hres, -, -⟩ := get_answers_ok (by decide) hsetB (by simp)
    (["b"]) (by simp) 1 (by decide)
  exact ⟨res, hres, (context_replacement_total hsetA hsetB hres).1 ▸ rfl,
    (context_replacement_total hsetA hsetB hres).2⟩

/-- C3 counterexample: a set_context_qa call with three questions but two
answers raises nothing — it succeeds with ok and overwrites the previously
stored answers, so no ShapeMismatch check protects the prior Index. -/
theorem set_context_mismatch_cex :
    ((set_context_qa B0 (set_context_qa B0 initS (["a"]) (["x"])).1
        (["q1", "q2", "q3"]) (["y1", "y2"])).2 = .ok ()) ∧
    ((set_context_qa B0 (set_context_qa B0 initS (["a"]) (["x"])).1
        (["q1", "q2", "q3"]) (["y1", "y2"])).1.answers = some (["y1", "y2"])) ∧
    ((set_context_qa B0 initS (["a"]) (["x"])).1.answers = some (["x"])) :=
  ⟨rfl, rfl, rfl⟩

/-- C3 (amended): set_context_qa performs no length validation at all: for
any non-empty questions list and ANY answers list, equal length or not, the
call succeeds before any check could fire, and the previously stored triple
is completely overwritten by the new, possibly mismatched, data.  (The
embedding work is likewise always performed; only an empty questions list
makes the call raise, with RuntimeError, not ShapeMismatch.) -/
theorem set_context_no_validation (B : Backend) (s : QASearcher)
    (qs ans : List String) (h : qs ≠ []) :
    (set_context_qa B s qs ans).2 = .ok () ∧
    (set_context_qa B s qs ans).1 = contextState B qs ans := by
  rw [set_context_qa_spec B s qs ans h]
  exact ⟨rfl, rfl⟩

/-- Witness for the amended C3, at mismatched lengths three versus two. -/
theorem set_context_no_validation_w :
    ((["q1", "q2", "q3"] : List String) ≠ []) ∧
    ((["q1", "q2", "q3"] : List String).length
      ≠ (["y1", "y2"] : List String).length) ∧
    (set_context_qa B0 initS (["q1", "q2", "q3"]) (["y1", "y2"])).2 = .ok () ∧
    (set_context_qa B0 initS (["q1", "q2", "q3"]) (["y1", "y2"])).1
      = contextState B0 (["q1", "q2", "q3"]) (["y1", "y2"]) :=
  ⟨by simp, by simp,
    (set_context_no_validation B0 initS (["q1", "q2", "q3"]) (["y1", "y2"])
      (by simp)).1,
    (set_context_no_validation B0 initS (["q1", "q2", "q3"]) (["y1", "y2"])
      (by simp)).2⟩

/-- C4 counterexample: a query against a freshly constructed searcher does
not fail with a ContextNotSet error value — no such error exists in the
code; the call crashes with the TypeError raised by handing None to
torch.mm. -/
theorem get_answers_unset_cex :
    (get_answers B0 initS (["a"]) 32).2 = .error .typeError := rfl

/-- C4 (amended): a get_answers call while the Index is unset crashes with
an unhandled TypeError (None handed to torch.mm), not a designed
ContextNotSet error; it never returns an empty or null match.  An empty
context meanwhile cannot even be stored: set_context_qa on empty sequences
itself raises RuntimeError inside the embedder, so an EmptyContext error at
query time is unreachable as well. -/
theorem get_answers_unset_crashes (B : Backend) (s : QASearcher)
    (queries : List String) (batch : Nat)
    (hunset : s.question_embeddings = none) (hq : queries ≠ []) (hb : 0 < batch) :
    (get_answers B s queries batch).2 = .error .typeError ∧
    (set_context_qa B s ([] : List String) ([] : List String)).2
      = .error .runtimeError := by
  constructor
  · rw [get_answers_snd, cosine_similarity, get_embeddings_eq B hb hq, hunset]
  · rw [set_context_qa, get_q_embeddings, get_embeddings_nil B (by norm_num)]

/-- Witness for the amended C4 at the concrete backend. -/
theorem get_answers_unset_crashes_w :
    initS.question_embeddings = none ∧
    (get_answers B0 initS (["a"]) 32).2 = .error .typeError ∧
    (set_context_qa B0 initS ([] : List String) ([] : List String)).2
      = .error .runtimeError :=
  ⟨rfl,
    (get_answers_unset_crashes B0 initS (["a"]) 32 rfl (by simp) (by norm_num)).1,
    (get_answers_unset_crashes B0 initS (["a"]) 32 rfl (by simp) (by norm_num)).2⟩

/-- C6 counterexample: embedding the empty text list raises RuntimeError
(torch.cat over an empty list of tensors) instead of returning an empty
vector sequence. -/
theorem get_embeddings_empty_cex :
    get_embeddings B0 ([] : List String) 1 = .error .runtimeError := rfl

/-- C6 (amended): empty input is NOT legal: get_embeddings on an empty text
list raises RuntimeError for every positive batch size (and ValueError for
batch size 0, since range rejects step 0), and set_context_qa on empty
sequences raises the same RuntimeError after having already overwritten the
stored questions and answers with the empty lists, leaving only the prior
embeddings in place. -/
theorem empty_input_raises (B : Backend) (s : QASearcher) (b : Nat) (hb : 0 < b) :
    get_embeddings B ([] : List String) b = .error .runtimeError ∧
    get_embeddings B ([] : List String) 0 = .error .valueError ∧
    (set_context_qa B s ([] : List String) ([] : List String)).2
      = .error .runtimeError ∧
    (set_context_qa B s ([] : List String) ([] : List String)).1
      = { s with
          questions := some ([] : List String),
          answers := some ([] : List String) } := by
  refine ⟨get_embeddings_nil B hb, rfl, ?_, ?_⟩
  · rw [set_context_qa, get_q_embeddings, get_embeddings_nil B (by norm_num)]
  · rw [set_context_qa, get_q_embeddings, get_embeddings_nil B (by norm_num)]

/-- Witness for the amended C6 at the concrete backend. -/
theorem empty_input_raises_w :
    get_embeddings B0 ([] : List String) 2 = .error .runtimeError ∧
    get_embeddings B0 ([] : List String) 0 = .error .valueError ∧
    (set_context_qa B0 initS ([] : List String) ([] : List String)).2
      = .error .runtimeError ∧
    (set_context_qa B0 initS ([] : List String) ([] : List String)).1
      = { initS with
          questions := some ([] : List String),
          answers := some ([] : List String) } :=
  ⟨(empty_input_raises B0 initS 2 (by norm_num)).1,
    (empty_input_raises B0 initS 2 (by norm_num)).2.1,
    (empty_input_raises B0 initS 2 (by norm_num)).2.2.1,
    (empty_input_raises B0 initS 2 (by norm_num)).2.2.2⟩

/-- C7: every entry of a similarity matrix computed against a stored
context is the inner product of two L2-normalized embeddings and lies in
the closed interval [-1, 1], provided the float square root does not
underestimate the norm of any involved embedding; moreover, when the text
of query i also appears verbatim at context position j and the square root
is exact and at least the clamp floor on that embedding, entry (i, j)
equals 1 and no entry of row i exceeds it. -/
theorem similarity_scores_bounded {B : Backend} (hD : 0 < B.dim)
    {s0 s1 : QASearcher} {qs ans queries : List String} {batch : Nat}
    {sim : List (List ℚ)}
    (hset : set_context_qa B s0 qs ans = (s1, .ok ()))
    (hsim : cosine_similarity B s1 queries batch = .ok sim)
    (hover : ∀ t ∈ queries ++ qs,
      0 ≤ B.sqrtFn (normSq (embedOne B t)) ∧
      normSq (embedOne B t) ≤ B.sqrtFn (normSq (embedOne B t)) ^ 2)
    (i j : Nat) (hi : i < queries.length) (hj : j < qs.length)
    (hveq : qs.getD j rec0.orig_q = queries.getD i rec0.orig_q)
    (hexact : B.sqrtFn (normSq (embedOne B (queries.getD i rec0.orig_q))) ^ 2
      = normSq (embedOne B (queries.getD i rec0.orig_q)))
    (hfloor : eps12 ≤ B.sqrtFn (normSq (embedOne B (queries.getD i rec0.orig_q)))) :
    (∀ row ∈ sim, ∀ x ∈ row, -1 ≤ x ∧ x ≤ 1) ∧
    (sim.getD i []).getD j 0 = 1 ∧
    (∀ m, m < qs.length → (sim.getD i []).getD m 0 ≤ (sim.getD i []).getD j 0) := by
  obtain ⟨hqs, hs1⟩ := set_context_ok hset
  subst hs1
  have hok : ∃ emb, get_embeddings B queries batch = .ok emb := by
    revert hsim
    rw [cosine_similarity]
    split
    · intro hc
      cases hc
    · rename_i emb hemb
      intro _
      exact ⟨emb, hemb⟩
  obtain ⟨emb, hemb⟩ := hok
  obtain ⟨hb, hquer, -⟩ := get_embeddings_ok hemb
  rw [cosine_similarity_eq hD qs ans queries batch hb hquer] at hsim
  injection hsim with hsim
  subst hsim
  have hqimem : queries.getD i rec0.orig_q ∈ queries ++ qs :=
    List.mem_append.mpr (Or.inl (getD_mem queries rec0.orig_q hi))
  refine ⟨?_, ?_, ?_⟩
  · intro row hrow x hx
    obtain ⟨qv, hqv, hrow2⟩ := List.mem_map.mp hrow
    obtain ⟨tq, htq, hqv2⟩ := List.mem_map.mp hqv
    subst hrow2
    subst hqv2
    obtain ⟨cv, hcv, hx2⟩ := List.mem_map.mp hx
    obtain ⟨tc, htc, hcv2⟩ := List.mem_map.mp hcv
    subst hx2
    subst hcv2
    exact score_in_unit_interval B
      (hover tq (List.mem_append.mpr (Or.inl htq)))
      (hover tc (List.mem_append.mpr (Or.inr htc)))
  · rw [sim_row B qs queries hi, sim_entry B qs _ hj, hveq]
    exact score_self_eq_one B hexact hfloor
  · intro m hm
    rw [sim_row B qs queries hi, sim_entry B qs _ hm, sim_entry B qs _ hj, hveq,
      score_self_eq_one B hexact hfloor]
    exact (score_in_unit_interval B (hover _ hqimem)
      (hover _ (List.mem_append.mpr (Or.inr (getD_mem qs rec0.orig_q hm))))).2

/-! ### Concrete evaluation of the witness backend -/

theorem max_one_eps9 : max ((1 : ℚ)) eps9 = 1 :=
  max_eq_left (by norm_num [eps9])

theorem embedOne_B0_a : embedOne B0 ("a") = [1, 0] := by
  simp [embedOne, B0, List.range_succ, max_one_eps9]

theorem embedOne_B0_b : embedOne B0 ("b") = [0, 1] := by
  simp [embedOne, B0, List.range_succ, max_one_eps9]

theorem normSq_B0_a : normSq (embedOne B0 ("a")) = 1 := by
  rw [embedOne_B0_a]
  norm_num [normSq]

theorem normSq_B0_b : normSq (embedOne B0 ("b")) = 1 := by
  rw [embedOne_B0_b]
  norm_num [normSq]

/-- Witness for C7 at the concrete backend: context a and b, query b, which
appears verbatim at context position 1. -/
theorem similarity_scores_bounded_w :
    ∃ sim, cosine_similarity B0 (contextState B0 (["a", "b"]) (["x", "y"]))
        (["b"]) 1 = .ok sim ∧
      (∀ row ∈ sim, ∀ x ∈ row, -1 ≤ x ∧ x ≤ 1) ∧
      (sim.getD 0 []).getD 1 0 = 1 ∧
      (∀ m, m < (["a", "b"] : List String).length →
        (sim.getD 0 []).getD m 0 ≤ (sim.getD 0 []).getD 1 0) := by
  have hset := set_context_qa_spec B0 initS (["a", "b"]) (["x", "y"]) (by simp)
  have hsim := cosine_similarity_eq (B := B0) (by decide) (["a", "b"])
    (["x", "y"]) (["b"]) 1 (by decide) (by simp)
  have hover : ∀ t ∈ (["b"] ++ ["a", "b"] : List String),
      0 ≤ B0.sqrtFn (normSq (embedOne B0 t)) ∧
      normSq (embedOne B0 t) ≤ B0.sqrtFn (normSq (embedOne B0 t)) ^ 2 := by
    intro t ht
    fin_cases ht
    · rw [normSq_B0_b]
      norm_num [B0]
    · rw [normSq_B0_a]
      norm_num [B0]
    · rw [normSq_B0_b]
      norm_num [B0]
  have h := similarity_scores_bounded (by decide) hset hsim hover 0 1
    (by decide) (by decide)
    (by rfl)
    (by
      show (1 : ℚ) ^ 2 = normSq (embedOne B0 ("b"))
      rw [normSq_B0_b]
      norm_num)
    (by
      show eps12 ≤ (1 : ℚ)
      norm_num [eps12])
  exact ⟨_, hsim, h.1, h.2.1, h.2.2⟩

/-- C8: masked mean pooling is division-safe and degenerate-input-safe: the
pooling divisor is clamped at 1e-9 hence strictly positive for every mask;
an all-padding text (zero real tokens) pools to the zero vector; and
L2-normalizing the zero vector returns it unchanged, since its entries stay
0 whatever the clamped norm divides them by. -/
theorem pooling_division_safe (B : Backend) (c : List String) (r : Nat)
    (t : String) (hm : B.numTok t = 0) :
    (∀ mask : List ℚ,
      0 < max (((List.range mask.length).map (fun k => mask.getD k 0)).sum) eps9) ∧
    mean_pooling B.dim (chunk_token_rows B c r t) (chunk_mask_row B c t)
      = List.replicate B.dim 0 ∧
    l2normalize B (List.replicate B.dim 0) = List.replicate B.dim 0 := by
  refine ⟨fun mask => lt_of_lt_of_le eps9_pos (le_max_right _ _), ?_, ?_⟩
  · unfold mean_pooling
    have hzero : ∀ d, (((List.range (chunk_mask_row B c t).length).map (fun k =>
        ((chunk_token_rows B c r t).getD k []).getD d 0
          * (chunk_mask_row B c t).getD k 0)).sum) = 0 := by
      intro d
      apply List.sum_eq_zero
      intro x hx
      obtain ⟨k, hk, hx2⟩ := List.mem_map.mp hx
      have hk' : k < (chunk_mask_row B c t).length := List.mem_range.mp hk
      have hmask : (chunk_mask_row B c t).getD k 0 = 0 := by
        rw [chunk_mask_row] at hk' ⊢
        rw [List.length_map, List.length_range] at hk'
        rw [getD_range_map _ _ hk', maskVal, hm]
        simp
      rw [← hx2, hmask, mul_zero]
    have hconst : ∀ d ∈ List.range B.dim,
        (((List.range (chunk_mask_row B c t).length).map (fun k =>
          ((chunk_token_rows B c r t).getD k []).getD d 0
            * (chunk_mask_row B c t).getD k 0)).sum)
        / max (((List.range (chunk_mask_row B c t).length).map
            (fun k => (chunk_mask_row B c t).getD k 0)).sum) eps9
        = (0 : ℚ) := by
      intro d _
      rw [hzero d, zero_div]
    rw [List.map_congr_left hconst, List.map_const', List.length_range]
  · show (List.replicate B.dim (0 : ℚ)).map _ = _
    rw [List.map_replicate, zero_div]

/-- Witness for C8 at the concrete backend: the empty string tokenizes to
nothing under B0s tokenizer stand-in (text z), giving an all-padding row. -/
theorem pooling_division_safe_w :
    B0.numTok ("z") = 0 ∧
    mean_pooling B0.dim (chunk_token_rows B0 (["a", "z"]) 1 ("z"))
        (chunk_mask_row B0 (["a", "z"]) ("z"))
      = List.replicate B0.dim 0 ∧
    l2normalize B0 (List.replicate B0.dim 0) = List.replicate B0.dim 0 :=
  ⟨rfl,
    (pooling_division_safe B0 (["a", "z"]) 1 ("z") rfl).2.1,
    (pooling_division_safe B0 (["a", "z"]) 1 ("z") rfl).2.2⟩
